import Mathlib

/-!
Verification development for the gj2ascii core pipeline
(`gj2ascii/_core.py`): geometry normalization, bounds resolution,
grid transform derivation, rasterization, grid-to-text rendering
(`render`) and layer compositing (`stack`).

Text is modelled as `List Char`; the line separator is the newline
character (the POSIX `os.linesep`).  Python machine floats are modelled
as exact rationals, with the float division-by-zero error made explicit.
The geometric coverage test performed by the external raster library
(`rasterio.features.rasterize`) is abstracted as an explicit kernel
parameter; its contract (output shape `(height, width)`, burn values
0/1) is modelled directly.
-/

/-- Python exception classes raised by the core pipeline. -/
inductive PyErr where
  | valueError (msg : String)
  | typeError (msg : String)
  | keyError (key : String)
  | zeroDivisionError
deriving DecidableEq

/-- Helper for `pySplitlines`: prepend a character to the first line of an
already-split tail (used when the character is not a newline). -/
def consHead (c : Char) : List (List Char) → List (List Char)
  | [] => [[c]]
  | l :: ls => (c :: l) :: ls

/-- Python `str.splitlines` restricted to the newline character, which is
the only line boundary occurring in rendered layers (the fill/value
symbols are printable, per the data model). `"".splitlines() = []` and a
trailing newline does not produce a trailing empty line. -/
def pySplitlines : List Char → List (List Char)
  | [] => []
  | c :: t => if c = '\n' then [] :: pySplitlines t else consHead c (pySplitlines t)

/-- Python slicing `s[::2]`: every other element, starting at index 0.
Used by `stack` to skip the single-space separators of a rendered row. -/
def every2 : List Char → List Char
  | [] => []
  | [c] => [c]
  | c :: _ :: rest => c :: every2 rest

/-- Python slicing `l[::4]`: every fourth element, starting at index 0.
Used on the flattened bounds list in `render`. -/
def every4 : List ℚ → List ℚ
  | [] => []
  | [a] => [a]
  | [a, _] => [a]
  | [a, _, _] => [a]
  | a :: _ :: _ :: _ :: rest => a :: every4 rest

/-- Python `' '.join` of a row of single characters. -/
def spaceJoin : List Char → List Char
  | [] => []
  | [c] => [c]
  | c :: c2 :: rest => c :: ' ' :: spaceJoin (c2 :: rest)

/-- Python `sep.join(pieces)` for string pieces. -/
def joinSep (sep : List Char) : List (List Char) → List Char
  | [] => []
  | [x] => x
  | x :: x2 :: xs => x ++ sep ++ joinSep sep (x2 :: xs)

/-- Python `s.strip(c)` for a one-character strip set: remove every
leading and trailing occurrence of `c`. -/
def pyStrip (c : Char) (s : List Char) : List Char :=
  ((s.dropWhile (fun x => x = c)).reverse.dropWhile (fun x => x = c)).reverse

/-- Python `s.replace(old, new)` for a single-character `old`, which is
the only shape used by `render` (the `numpy.char.replace` calls replace
the one-character substrings `'0'` and `'1'`). -/
def replaceChar (old : Char) (new : List Char) : List Char → List Char
  | [] => []
  | ch :: t => (if ch = old then new else [ch]) ++ replaceChar old new t

/-- Sequential, short-circuiting effectful map: the evaluation order of a
Python `for` loop or generator, where the first raised exception aborts
the whole iteration. -/
def mapE (f : α → Except PyErr β) : List α → Except PyErr (List β)
  | [] => .ok []
  | x :: xs =>
    match f x with
    | .error e => .error e
    | .ok y =>
      match mapE f xs with
      | .error e => .error e
      | .ok ys => .ok (y :: ys)

/-- Length of the shortest member list (0 when there are no lists):
the number of tuples produced by Python `zip(*ls)`. -/
def minLen (ls : List (List α)) : Nat :=
  match ls with
  | [] => 0
  | l :: rest => rest.foldl (fun m l2 => min m l2.length) l.length

/-- Python `zip(*ls)`: transpose, truncating every list to the shortest.
The default element is never reached (all indices are below every
length); `zip()` of no iterables yields nothing. -/
def zipN [Inhabited α] (ls : List (List α)) : List (List α) :=
  match ls with
  | [] => []
  | _ :: _ => (List.range (minLen ls)).map (fun i => ls.map (fun l => l.getD i default))

/-- Python `min` over a list: raises `ValueError` on an empty sequence. -/
def pyMin : List ℚ → Except PyErr ℚ
  | [] => .error (.valueError "min arg is an empty sequence")
  | x :: xs => .ok (xs.foldl min x)

/-- Python `max` over a list: raises `ValueError` on an empty sequence. -/
def pyMax : List ℚ → Except PyErr ℚ
  | [] => .error (.valueError "max arg is an empty sequence")
  | x :: xs => .ok (xs.foldl max x)

/-- Python `int()` on a rational: truncation toward zero. -/
def pyInt (q : ℚ) : Int :=
  if q < 0 then -((-q).floor) else q.floor

/-- `str()` of a small non-negative integer (the occupancy grid holds
only 0/1 cells after `astype(np.str_)`). -/
def natToStr (n : Nat) : List Char :=
  (toString n).data

/-- A GeoJSON-style mapping, restricted to the entries the extractor and
the bounds computation inspect: the `'type'` tag (if the key is
present), the `'coordinates'` entry (if present; its nested arrays are
flattened to the point list they contain, which is all the bounding-box
computation of the shape library observes), and the `'geometry'`
sub-mapping of a feature (if present). -/
inductive GeomDict where
  | mk (type? : Option String) (coords? : Option (List (ℚ × ℚ))) (geometry? : Option GeomDict)

/-- Value of the `'type'` key, when present. -/
def GeomDict.type? : GeomDict → Option String
  | .mk t _ _ => t

/-- Value of the `'coordinates'` key, when present. -/
def GeomDict.coords? : GeomDict → Option (List (ℚ × ℚ))
  | .mk _ c _ => c

/-- Value of the `'geometry'` key, when present. -/
def GeomDict.geometry? : GeomDict → Option GeomDict
  | .mk _ _ g => g

/-- One element of the input stream of `_geometry_extractor`: either an
object exposing `__geo_interface__` (for which `mapping(obj)` yields the
recorded plain geometry mapping) or a plain mapping. -/
inductive GeoElem where
  | iface (mapped : GeomDict)
  | plain (d : GeomDict)

/-- The per-mapping logic of `_geometry_extractor`: `obj['type']` is read
unconditionally (a missing key raises `KeyError`); a `'Feature'` tag
yields `obj['geometry']`; otherwise a mapping containing
`'coordinates'` is yielded unchanged; otherwise `TypeError`. -/
def extractDict (d : GeomDict) : Except PyErr GeomDict :=
  match d.type? with
  | none => .error (.keyError "type")
  | some t =>
    if t = "Feature" then
      match d.geometry? with
      | some g => .ok g
      | none => .error (.keyError "geometry")
    else if d.coords?.isSome then .ok d
    else .error (.typeError "An input object is not a feature, geometry, or object supporting the geometry interface")

/-- One step of `_geometry_extractor`: objects exposing
`__geo_interface__` are first converted via `mapping(obj)`. -/
def extractElem : GeoElem → Except PyErr GeomDict
  | .iface m => extractDict m
  | .plain d => extractDict d

/-- `_geometry_extractor` over an input sequence (a bare mapping or
interface object is the one-element sequence). Generator semantics:
the first failing element aborts the stream. -/
def geometry_extractor (ftrz : List GeoElem) : Except PyErr (List GeomDict) :=
  mapE extractElem ftrz

/-- `asShape(g).bounds` of the external shape library: the bounding box
(min x, min y, max x, max y) of the geometry's coordinates; a mapping
without (nonempty) coordinate data has no bounds. -/
def shapeBounds (g : GeomDict) : Except PyErr (ℚ × ℚ × ℚ × ℚ) :=
  match g.coords? with
  | some ((x, y) :: rest) =>
    .ok (rest.foldl (fun m p => min m p.1) x,
         rest.foldl (fun m p => min m p.2) y,
         rest.foldl (fun m p => max m p.1) x,
         rest.foldl (fun m p => max m p.2) y)
  | _ => .error (.valueError "cannot determine bounds of a geometry without coordinates")

/-- Flatten a list of 4-tuples of bounds in order, as
`list(itertools.chain(*bounds))` does. -/
def quadFlat : List (ℚ × ℚ × ℚ × ℚ) → List ℚ
  | [] => []
  | (a, b, c, d) :: t => a :: b :: c :: d :: quadFlat t

/-- Bounds inference of `render` when no bbox is supplied: extract every
geometry, chain all the individual 4-tuple bounds into one flat list and
reduce the strided slices `coords[0::4]` ... `coords[3::4]` with
`min`/`max` (in that order, so the first empty reduction raises). -/
def inferBounds (elems : List GeoElem) : Except PyErr (ℚ × ℚ × ℚ × ℚ) :=
  match geometry_extractor elems with
  | .error e => .error e
  | .ok gs =>
    match mapE shapeBounds gs with
    | .error e => .error e
    | .ok bl =>
      let coords := quadFlat bl
      match pyMin (every4 coords), pyMin (every4 (coords.drop 1)),
            pyMax (every4 (coords.drop 2)), pyMax (every4 (coords.drop 3)) with
      | .ok x0, .ok y0, .ok x1, .ok y1 => .ok (x0, y0, x1, y1)
      | .error e, _, _, _ => .error e
      | _, .error e, _, _ => .error e
      | _, _, .error e, _ => .error e
      | _, _, _, .error e => .error e

/-- The six affine coefficients, as stored by the external affine
library. -/
structure Affine where
  a : ℚ
  b : ℚ
  c : ℚ
  d : ℚ
  e : ℚ
  f : ℚ
deriving DecidableEq

/-- `affine.Affine.from_gdal`: GDAL parameter order
(c, a, b, f, d, e). -/
def Affine.from_gdal (c a b f d e : ℚ) : Affine :=
  ⟨a, b, c, d, e, f⟩

/-- Transform and shape derivation of `render` (lines 320-332 of the
source): `cell_size = x_delta / width`, `height = int(y_delta /
cell_size)` clamped from exactly 0 up to 1.  Python float division by
zero raises `ZeroDivisionError`; a negative first dimension is rejected
by the array library. -/
def gridShape (bb : ℚ × ℚ × ℚ × ℚ) (width : Int) : Except PyErr (Nat × Nat × Affine) :=
  let x_min := bb.1
  let y_max := bb.2.2.2
  let x_delta := bb.2.2.1 - bb.1
  let y_delta := bb.2.2.2 - bb.2.1
  if (width : ℚ) = 0 then .error .zeroDivisionError
  else
    let cell_size := x_delta / (width : ℚ)
    if cell_size = 0 then .error .zeroDivisionError
    else
      let height0 := pyInt (y_delta / cell_size)
      let height := if height0 = 0 then 1 else height0
      if height < 0 then .error (.valueError "negative dimensions are not allowed")
      else .ok (height.toNat, width.toNat, Affine.from_gdal x_min cell_size 0 y_max 0 (-cell_size))

/-- Abstract geometric coverage test of the external raster library:
given the shapes, the transform, the all-touched policy and a cell
address, decide whether the cell is burned. -/
abbrev RKernel := List GeomDict → Affine → Bool → Nat → Nat → Bool

/-- A geometry source handed to `render`: the underlying finite element
sequence plus its iteration protocol.  `isGenerator` models
`isinstance(ftrz, GeneratorType)` (the only duplication trigger in the
source); `singlePass` records whether iterating the source exhausts it
(true for every generator, also true for non-generator one-shot
iterators). -/
structure GeoSource where
  elems : List GeoElem
  isGenerator : Bool
  singlePass : Bool

/-- `rasterio.features.rasterize` with `fill=0`, `default_value=1`,
`dtype=uint8`: burns 1 into covered cells of an all-zero grid of shape
`(h, w)`; an empty shape iterable is rejected with `ValueError`. -/
def rasterize (kernel : RKernel) (shapes : List GeomDict) (h w : Nat) (tr : Affine)
    (allTouched : Bool) : Except PyErr (List (List Nat)) :=
  if shapes.isEmpty then .error (.valueError "No valid geometry objects found for rasterize")
  else .ok ((List.range h).map (fun _r =>
    (List.range w).map (fun _c => if kernel shapes tr allTouched _r _c then 1 else 0)))

/-- Lines 337-342 of the source: `astype(np.str_)` followed by the two
conditional `np.char.replace` calls.  The guards are modelled exactly as
written: the first replacement is skipped when `fill == '0'`, and the
second is skipped when `fill == '1'` (the source compares `fill`, not
`value`, against `'1'`).  The `is not None` halves of the guards are
always true after the `str()` conversion. -/
def charElems (grid : List (List Nat)) (fill value : List Char) : List (List (List Char)) :=
  let strGrid := grid.map (fun row => row.map natToStr)
  let g1 := if fill ≠ ['0'] then strGrid.map (fun row => row.map (replaceChar '0' fill)) else strGrid
  if fill ≠ ['1'] then g1.map (fun row => row.map (replaceChar '1' value)) else g1

/-- Lines 344-349 of the source: `np.savetxt` with format `%s` (elements
joined by single spaces, every row followed by a newline), then
`strip(os.linesep)` and one appended trailing separator. -/
def gridToText (grid : List (List Nat)) (fill value : List Char) : List Char :=
  let lines := (charElems grid fill value).map (fun row => joinSep [' '] row)
  pyStrip '\n' ((lines.map (fun l => l ++ ['\n'])).flatten) ++ ['\n']

/-- Lines 292-299 of the source: the argument checks of `render`, in
source order (fill, then value, then width). -/
def validate (width : Int) (fill value : List Char) : Except PyErr Unit :=
  if fill.length ≠ 1 then .error (.valueError "Invalid fill value - must be 1 character long")
  else if value.length ≠ 1 then .error (.valueError "Invalid pixel value - must be 1 character long")
  else if width ≤ 0 then .error (.valueError "Invalid width - must be greater than 0")
  else .ok ()

/-- Lines 301-318 of the source: use an explicit bbox verbatim (a
4-tuple is always truthy), otherwise infer bounds from the source,
duplicating the cursor with `itertools.tee` only when the source is a
generator.  The returned element list is the remainder available to the
rasterizer after bounds inference has consumed its cursor. -/
def resolveSource (ftrz : GeoSource) (bbox : Option (ℚ × ℚ × ℚ × ℚ)) :
    Except PyErr ((ℚ × ℚ × ℚ × ℚ) × List GeoElem) :=
  match bbox with
  | some bb => .ok (bb, ftrz.elems)
  | none =>
    let raster_elems := if ftrz.isGenerator then ftrz.elems
      else if ftrz.singlePass then [] else ftrz.elems
    match inferBounds ftrz.elems with
    | .error e => .error e
    | .ok bb => .ok (bb, raster_elems)

/-- The fill/value-independent front of the `render` pipeline: everything
up to and including rasterization (the character replacements and the
serialization are the only parts of `render` that read the fill and
value symbols after validation). -/
def renderGrid (kernel : RKernel) (ftrz : GeoSource) (width : Int)
    (allTouched : Bool) (bbox : Option (ℚ × ℚ × ℚ × ℚ)) :
    Except PyErr (List (List Nat)) :=
  match resolveSource ftrz bbox with
  | .error e => .error e
  | .ok (bb, raster_elems) =>
    match gridShape bb width with
    | .error e => .error e
    | .ok (h, w, tr) =>
      match geometry_extractor raster_elems with
      | .error e => .error e
      | .ok shapes => rasterize kernel shapes h w tr allTouched

/-- The `render` pipeline of the source, stage by stage in source order:
validation (lines 292-299), then the fill/value-independent middle of
the pipeline (`renderGrid`, lines 301-335: bounds resolution,
transform/shape derivation, geometry extraction for the rasterizer and
rasterization), then the grid-to-text conversion (lines 337-349). -/
def render_full (kernel : RKernel) (ftrz : GeoSource) (width : Int) (fill value : List Char)
    (allTouched : Bool) (bbox : Option (ℚ × ℚ × ℚ × ℚ)) : Except PyErr (List Char) :=
  match validate width fill value with
  | .error e => .error e
  | .ok _ =>
    match renderGrid kernel ftrz width allTouched bbox with
    | .error e => .error e
    | .ok grid => .ok (gridToText grid fill value)

/-- Lines 210-215 of the source: resolve one pixel stack by dropping the
space characters and keeping the last remaining one, or the new fill
character when everything is space. -/
def stackPixel (fillc : Char) (pixel_stack : List Char) : Char :=
  let solid_pixels := pixel_stack.filter (fun p => p ≠ ' ')
  if solid_pixels.length = 0 then fillc else solid_pixels.getLastD fillc

/-- Lines 206-216 of the source: one aligned row across all layers -
reject heterogeneous line lengths (`len(set(...)) is not 1`), then
resolve each column of the `[::2]`-sliced rows and rejoin with single
spaces. -/
def stackRow (fillc : Char) (row_stack : List (List Char)) : Except PyErr (List Char) :=
  if ((row_stack.map List.length).dedup).length ≠ 1 then
    .error (.valueError "Input layers have heterogeneous dimensions")
  else .ok (spaceJoin ((zipN (row_stack.map every2)).map (stackPixel fillc)))

/-- `stack` (lines 199-218 of the source): validate the fill, zip the
split layers row-wise (truncating to the shortest), resolve every row
and join with the line separator plus one trailing separator. -/
def stack (rendered_layers : List (List Char)) (fill : List Char) : Except PyErr (List Char) :=
  match fill with
  | [fillc] =>
    match mapE (stackRow fillc) (zipN (rendered_layers.map pySplitlines)) with
    | .error e => .error e
    | .ok output_rows => .ok (joinSep ['\n'] output_rows ++ ['\n'])
  | _ => .error (.valueError "Invalid fill value - must be 1 character long")

/-- Modelled from the spec (the compositing rule in its own words):
"among the remaining non-space characters take the one belonging to the
topmost (last) layer that has a non-space character there". -/
def topmostDrawn (pixel_stack : List Char) : Option Char :=
  pixel_stack.reverse.find? (fun c => c ≠ ' ')

/-- The character grid cell (row `i`, column `j`) of a rendered text
block: line `i`, with the space separators sliced away. -/
def layerCell (t : List Char) (i j : Nat) : Char :=
  (every2 ((pySplitlines t).getD i [])).getD j ' '

/-- The line count of the shortest layer of a stack input. -/
def minLineCount (layers : List (List Char)) : Nat :=
  minLen (layers.map pySplitlines)

/-- The per-cell character that the two replacement passes of `render`
produce on a 0/1 grid: 0 cells become the fill; 1 cells become the value
unless the fill is the digit 1, in which case the second replacement
pass is skipped and they stay as the digit 1. -/
def cellChar (f v : Char) (x : Nat) : Char :=
  if x = 0 then f else if f = '1' then '1' else v

/-- A coverage kernel that burns every cell (concrete instantiations
only ever fix one kernel; the claims hold for every kernel). -/
def kernelAll : RKernel := fun _ _ _ _ _ => true

/-- A single-point geometry mapping. -/
def pointGeom (x y : ℚ) : GeomDict :=
  GeomDict.mk (some "Point") (some [(x, y)]) none

/-- A two-point line geometry mapping. -/
def segGeom (x0 y0 x1 y1 : ℚ) : GeomDict :=
  GeomDict.mk (some "LineString") (some [(x0, y0), (x1, y1)]) none

/-! ### List helper lemmas -/

theorem twoStepInduction {P : List Char → Prop} (h0 : P []) (h1 : ∀ a, P [a])
    (h2 : ∀ a b l, P l → P (a :: b :: l)) : ∀ l, P l
  | [] => h0
  | [a] => h1 a
  | a :: b :: l => h2 a b l (twoStepInduction h0 h1 h2 l)

theorem every2_spaceJoin : ∀ l : List Char, every2 (spaceJoin l) = l := by
  intro l
  induction l with
  | nil => rfl
  | cons c t ih =>
    cases t with
    | nil => rfl
    | cons c2 t2 => simp only [spaceJoin, every2, ih]

theorem spaceJoin_length : ∀ l : List Char, l ≠ [] → (spaceJoin l).length = 2 * l.length - 1 := by
  intro l
  induction l with
  | nil => intro h; exact absurd rfl h
  | cons c t ih =>
    intro _
    cases t with
    | nil => rfl
    | cons c2 t2 =>
      have := ih (by simp)
      simp only [spaceJoin, List.length_cons] at this ⊢
      omega

theorem every2_length (l : List Char) : (every2 l).length = (l.length + 1) / 2 := by
  induction l using twoStepInduction with
  | h0 => rfl
  | h1 a => simp [every2]
  | h2 a b l ih =>
    simp only [every2, List.length_cons, ih]
    omega

theorem mem_spaceJoin : ∀ (l : List Char) (c : Char), c ∈ spaceJoin l → c ∈ l ∨ c = ' ' := by
  intro l
  induction l with
  | nil => intro c h; simp [spaceJoin] at h
  | cons a t ih =>
    intro c h
    cases t with
    | nil =>
      simp only [spaceJoin, List.mem_singleton] at h
      exact Or.inl (by simp [h])
    | cons a2 t2 =>
      simp only [spaceJoin, List.mem_cons] at h
      rcases h with h | h | h
      · exact Or.inl (by simp [h])
      · exact Or.inr h
      · rcases ih c h with h' | h'
        · exact Or.inl (List.mem_cons_of_mem _ h')
        · exact Or.inr h'

theorem mem_pySplitlines_no_nl : ∀ (s : List Char) (ln : List Char),
    ln ∈ pySplitlines s → '\n' ∉ ln := by
  intro s
  induction s with
  | nil => intro ln h; simp [pySplitlines] at h
  | cons c t ih =>
    intro ln h
    by_cases hc : c = '\n'
    · subst hc
      rw [show pySplitlines ('\n' :: t) = [] :: pySplitlines t by simp [pySplitlines]] at h
      rcases List.mem_cons.mp h with h | h
      · subst h; simp
      · exact ih ln h
    · simp only [pySplitlines, if_neg hc] at h
      cases hps : pySplitlines t with
      | nil =>
        rw [hps] at h
        simp only [consHead, List.mem_singleton] at h
        subst h
        simp only [List.mem_singleton]
        exact fun h' => hc h'.symm
      | cons l ls =>
        rw [hps] at h
        simp only [consHead, List.mem_cons] at h
        rcases h with h | h
        · subst h
          intro hmem
          rcases List.mem_cons.mp hmem with h' | h'
          · exact hc h'.symm
          · exact ih l (by simp [hps]) h'
        · exact ih ln (by simp [hps, h])

theorem pySplitlines_append_nl : ∀ (r t : List Char), '\n' ∉ r →
    pySplitlines (r ++ '\n' :: t) = r :: pySplitlines t := by
  intro r
  induction r with
  | nil => intro t _; simp [pySplitlines]
  | cons c r' ih =>
    intro t h
    have hc : c ≠ '\n' := fun hh => h (by simp [hh])
    have h' : '\n' ∉ r' := fun hh => h (by simp [hh])
    show pySplitlines (c :: (r' ++ '\n' :: t)) = (c :: r') :: pySplitlines t
    simp only [pySplitlines, if_neg hc, ih t h', consHead]

theorem pySplitlines_joinSep : ∀ rows : List (List Char), rows ≠ [] →
    (∀ r ∈ rows, '\n' ∉ r) → pySplitlines (joinSep ['\n'] rows ++ ['\n']) = rows := by
  intro rows
  induction rows with
  | nil => intro h; exact absurd rfl h
  | cons r rest ih =>
    intro _ hnl
    cases rest with
    | nil =>
      have : joinSep ['\n'] [r] ++ ['\n'] = r ++ '\n' :: [] := by simp [joinSep]
      rw [this, pySplitlines_append_nl r [] (hnl r (by simp))]
      rfl
    | cons r2 rest2 =>
      have : joinSep ['\n'] (r :: r2 :: rest2) ++ ['\n']
          = r ++ '\n' :: (joinSep ['\n'] (r2 :: rest2) ++ ['\n']) := by
        simp [joinSep]
      rw [this, pySplitlines_append_nl _ _ (hnl r (by simp))]
      rw [ih (by simp) (fun x hx => hnl x (List.mem_cons_of_mem _ hx))]

theorem flatten_lines_eq : ∀ lines : List (List Char), lines ≠ [] →
    (lines.map (fun l => l ++ ['\n'])).flatten = joinSep ['\n'] lines ++ ['\n'] := by
  intro lines
  induction lines with
  | nil => intro h; exact absurd rfl h
  | cons r rest ih =>
    intro _
    cases rest with
    | nil => simp [joinSep]
    | cons r2 rest2 =>
      rw [List.map_cons, List.flatten_cons, ih (by simp)]
      show (r ++ ['\n']) ++ (joinSep ['\n'] (r2 :: rest2) ++ ['\n'])
          = joinSep ['\n'] (r :: r2 :: rest2) ++ ['\n']
      simp [joinSep]

theorem dropWhile_eq_self_of_head : ∀ (l : List Char) (p : Char → Bool),
    (∀ c, l.head? = some c → p c = false) → l.dropWhile p = l := by
  intro l p h
  cases l with
  | nil => rfl
  | cons c t => simp [List.dropWhile_cons, h c rfl]

theorem pyStrip_append_nl (s : List Char) (h1 : ∀ c, s.head? = some c → c ≠ '\n')
    (h2 : ∀ c, s.getLast? = some c → c ≠ '\n') : pyStrip '\n' (s ++ ['\n']) = s := by
  cases s with
  | nil => rfl
  | cons c t =>
    unfold pyStrip
    have hc : c ≠ '\n' := h1 c rfl
    have front : ((c :: t) ++ ['\n']).dropWhile (fun x => x = '\n') = (c :: t) ++ ['\n'] := by
      apply dropWhile_eq_self_of_head
      intro x hx
      simp only [List.cons_append, List.head?_cons, Option.some.injEq] at hx
      subst hx
      simp [hc]
    rw [front]
    have hrev : ((c :: t) ++ ['\n']).reverse = '\n' :: (c :: t).reverse := by simp
    rw [hrev]
    have : List.dropWhile (fun x => x = '\n') ('\n' :: (c :: t).reverse) =
        List.dropWhile (fun x => x = '\n') (c :: t).reverse := by
      simp [List.dropWhile_cons]
    rw [this, dropWhile_eq_self_of_head _ _ ?_, List.reverse_reverse]
    intro x hx
    rw [List.head?_reverse] at hx
    simp [h2 x hx]

theorem mapE_map_ok {f : α → Except PyErr β} {g : α → β} :
    ∀ l : List α, (∀ x ∈ l, f x = .ok (g x)) → mapE f l = .ok (l.map g) := by
  intro l
  induction l with
  | nil => intro _; rfl
  | cons x xs ih =>
    intro h
    simp only [mapE, h x (by simp), ih (fun y hy => h y (List.mem_cons_of_mem _ hy)),
      List.map_cons]

theorem mapE_error_of_mem {f : α → Except PyErr β} :
    ∀ (l : List α) (x : α), x ∈ l → (∃ e, f x = .error e) → ∃ e, mapE f l = .error e := by
  intro l
  induction l with
  | nil => intro x hx; simp at hx
  | cons y ys ih =>
    intro x hx ⟨e, he⟩
    rcases List.mem_cons.mp hx with h | h
    · subst h
      exact ⟨e, by simp [mapE, he]⟩
    · cases hy : f y with
      | error e2 => exact ⟨e2, by simp [mapE, hy]⟩
      | ok v =>
        rcases ih x h ⟨e, he⟩ with ⟨e3, he3⟩
        exact ⟨e3, by simp [mapE, hy, he3]⟩

theorem foldl_min_const : ∀ (ls : List (List α)) (a n : Nat), (∀ l ∈ ls, l.length = n) →
    ls.foldl (fun m l2 => min m l2.length) (min a n) = min a n := by
  intro ls
  induction ls with
  | nil => intro a n _; rfl
  | cons l rest ih =>
    intro a n h
    have hl : l.length = n := h l (by simp)
    have step : min (min a n) l.length = min (min a n) n := by rw [hl]
    have collapse : min (min a n) n = min a n := by rw [min_assoc, min_self]
    simp only [List.foldl_cons, step, collapse]
    exact ih a n (fun x hx => h x (List.mem_cons_of_mem _ hx))

theorem minLen_const {ls : List (List α)} {n : Nat} (hne : ls ≠ [])
    (h : ∀ l ∈ ls, l.length = n) : minLen ls = n := by
  cases ls with
  | nil => exact absurd rfl hne
  | cons l rest =>
    have hl : l.length = n := h l (by simp)
    have hself : l.length = min n n := by rw [min_self]; exact hl
    show rest.foldl (fun m l2 => min m l2.length) l.length = n
    rw [hself, foldl_min_const rest n n (fun x hx => h x (List.mem_cons_of_mem _ hx)), min_self]

theorem range_getD : ∀ (l : List α) (d : α),
    (List.range l.length).map (fun i => l.getD i d) = l := by
  intro l
  induction l with
  | nil => intro d; rfl
  | cons x xs ih =>
    intro d
    rw [List.length_cons, List.range_succ_eq_map, List.map_cons, List.map_map]
    have hcomp : ((fun i => (x :: xs).getD i d) ∘ Nat.succ) = (fun i => xs.getD i d) := by
      funext i
      simp

    rw [List.getD_cons_zero, hcomp, ih d]

theorem getD_range_map (f : Nat → β) (m i : Nat) (d : β) (h : i < m) :
    ((List.range m).map f).getD i d = f i := by
  rw [List.getD_eq_getElem?_getD, List.getElem?_map, List.getElem?_range h]
  rfl

theorem zipN_length [Inhabited α] {ls : List (List α)} (h : ls ≠ []) :
    (zipN ls).length = minLen ls := by
  cases ls with
  | nil => exact absurd rfl h
  | cons l rest => simp [zipN]

theorem zipN_getD [Inhabited α] {ls : List (List α)} (h : ls ≠ []) {i : Nat}
    (hi : i < minLen ls) : (zipN ls).getD i [] = ls.map (fun l => l.getD i default) := by
  cases ls with
  | nil => exact absurd rfl h
  | cons l rest =>
    show ((List.range (minLen (l :: rest))).map
      (fun i => (l :: rest).map (fun l2 => l2.getD i default))).getD i [] = _
    rw [getD_range_map _ _ _ _ hi]

theorem dedup_const : ∀ (l : List Nat) (n : Nat), l ≠ [] → (∀ x ∈ l, x = n) →
    l.dedup = [n] := by
  intro l
  induction l with
  | nil => intro n h _; exact absurd rfl h
  | cons x xs ih =>
    intro n _ h
    have hx : x = n := h x (by simp)
    subst hx
    by_cases hxs : xs = []
    · subst hxs; simp
    · have hd : xs.dedup = [x] :=
        ih x hxs (fun z hz => h z (List.mem_cons_of_mem _ hz))
      have hmem : x ∈ xs := List.mem_dedup.mp (by rw [hd]; simp)
      rw [List.dedup_cons_of_mem hmem, hd]

theorem dedup_len_ne_one {l : List Nat} {a b : Nat} (ha : a ∈ l) (hb : b ∈ l)
    (hab : a ≠ b) : l.dedup.length ≠ 1 := by
  intro h
  rcases List.length_eq_one.mp h with ⟨c, hc⟩
  have h1 : a = c := List.mem_singleton.mp (hc ▸ List.mem_dedup.mpr ha)
  have h2 : b = c := List.mem_singleton.mp (hc ▸ List.mem_dedup.mpr hb)
  exact hab (h1.trans h2.symm)

theorem getD_mem_or_default : ∀ (l : List α) (i : Nat) (d : α),
    l.getD i d ∈ l ∨ l.getD i d = d := by
  intro l
  induction l with
  | nil => intro i d; simp
  | cons x xs ih =>
    intro i d
    cases i with
    | zero => simp
    | succ j =>
      rw [List.getD_cons_succ]
      rcases ih j d with h | h
      · exact Or.inl (List.mem_cons_of_mem _ h)
      · exact Or.inr h

theorem getD_eq_getD : ∀ (l : List α) (i : Nat) (d1 d2 : α), i < l.length →
    l.getD i d1 = l.getD i d2 := by
  intro l
  induction l with
  | nil => intro i d1 d2 h; simp at h
  | cons x xs ih =>
    intro i d1 d2 h
    cases i with
    | zero => simp
    | succ j =>
      simp only [List.getD_cons_succ]
      exact ih j d1 d2 (by simpa using h)

theorem find?_append (p : Char → Bool) : ∀ (l1 l2 : List Char),
    (l1 ++ l2).find? p = match l1.find? p with
      | some x => some x
      | none => l2.find? p := by
  intro l1 l2
  induction l1 with
  | nil => simp [List.find?]
  | cons x xs ih =>
    by_cases hx : p x
    · rw [List.cons_append, List.find?_cons_of_pos _ hx, List.find?_cons_of_pos _ hx]
    · rw [List.cons_append, List.find?_cons_of_neg _ hx, List.find?_cons_of_neg _ hx]
      exact ih

theorem getLast?_cons_ne_nil (a : Char) {l : List Char} (h : l ≠ []) :
    (a :: l).getLast? = l.getLast? := by
  cases l with
  | nil => exact absurd rfl h
  | cons b t => exact List.getLast?_cons_cons

theorem getLast?_none_iff {l : List Char} : l.getLast? = none ↔ l = [] := by
  cases l with
  | nil => simp
  | cons a t =>
    constructor
    · intro h
      exfalso
      induction t generalizing a with
      | nil => simp [List.getLast?] at h
      | cons b t2 ih => exact ih b ((List.getLast?_cons_cons).symm.trans h)
    · intro h
      simp at h

theorem filter_getLast?_eq_rev_find? (p : Char → Bool) :
    ∀ l : List Char, (l.filter p).getLast? = l.reverse.find? p := by
  intro l
  induction l with
  | nil => rfl
  | cons x xs ih =>
    rw [List.reverse_cons, find?_append]
    cases hf : (xs.reverse).find? p with
    | some c =>
      have hlast : (xs.filter p).getLast? = some c := by rw [ih, hf]
      have hne : xs.filter p ≠ [] := by
        intro hnil
        rw [hnil] at hlast
        simp at hlast
      by_cases hx : p x
      · rw [List.filter_cons_of_pos hx, getLast?_cons_ne_nil x hne, hlast]
      · rw [List.filter_cons_of_neg hx, hlast]
    | none =>
      have hlast : (xs.filter p).getLast? = none := by rw [ih, hf]
      have hnil : xs.filter p = [] := getLast?_none_iff.mp hlast
      by_cases hx : p x
      · rw [List.filter_cons_of_pos hx, hnil]
        simp [List.find?, hx]
      · rw [List.filter_cons_of_neg hx, hnil]
        simp [List.find?, hx]

theorem stackPixel_eq_topmost (f : Char) (ps : List Char) :
    stackPixel f ps = (topmostDrawn ps).getD f := by
  simp only [stackPixel, topmostDrawn]
  rw [← filter_getLast?_eq_rev_find?]
  cases hf : ps.filter (fun c => c ≠ ' ') with
  | nil => simp
  | cons a as => simp [List.getLastD_eq_getLast?]

/-! ### Grid-to-text structure lemmas -/

theorem spaceJoin_ne_nil : ∀ (cs : List Char), cs ≠ [] → spaceJoin cs ≠ [] := by
  intro cs h
  cases cs with
  | nil => exact absurd rfl h
  | cons c t => cases t <;> simp [spaceJoin]

theorem joinSep_singletons : ∀ cs : List Char,
    joinSep [' '] (cs.map (fun c => [c])) = spaceJoin cs := by
  intro cs
  induction cs with
  | nil => rfl
  | cons c t ih =>
    cases t with
    | nil => rfl
    | cons c2 t2 =>
      simp only [List.map_cons] at ih ⊢
      rw [show joinSep [' '] ([c] :: [c2] :: List.map (fun c => [c]) t2)
          = [c] ++ [' '] ++ joinSep [' '] ([c2] :: List.map (fun c => [c]) t2) from rfl]
      rw [ih]
      rfl

theorem joinSep_nl_ne_nil : ∀ (l : List Char) (rest : List (List Char)), l ≠ [] →
    joinSep ['\n'] (l :: rest) ≠ [] := by
  intro l rest hl
  cases rest with
  | nil => simpa [joinSep] using hl
  | cons l2 rest2 =>
    show l ++ ['\n'] ++ joinSep ['\n'] (l2 :: rest2) ≠ []
    simp [hl]

theorem joinSep_nl_head? : ∀ (l : List Char) (rest : List (List Char)), l ≠ [] →
    (joinSep ['\n'] (l :: rest)).head? = l.head? := by
  intro l rest hl
  cases l with
  | nil => exact absurd rfl hl
  | cons c t =>
    cases rest with
    | nil => rfl
    | cons l2 rest2 => rfl

theorem joinSep_nl_getLast? : ∀ (lines : List (List Char)), lines ≠ [] →
    (∀ l ∈ lines, l ≠ []) →
    ∃ ln ∈ lines, (joinSep ['\n'] lines).getLast? = ln.getLast? := by
  intro lines
  induction lines with
  | nil => intro h; exact absurd rfl h
  | cons l rest ih =>
    intro _ hall
    cases rest with
    | nil => exact ⟨l, by simp, rfl⟩
    | cons l2 rest2 =>
      have hl2 : l2 ≠ [] := hall l2 (by simp)
      have hJ : joinSep ['\n'] (l2 :: rest2) ≠ [] := joinSep_nl_ne_nil l2 rest2 hl2
      rcases ih (by simp) (fun x hx => hall x (List.mem_cons_of_mem _ hx)) with ⟨ln, hmem, hlast⟩
      refine ⟨ln, List.mem_cons_of_mem _ hmem, ?_⟩
      show (l ++ ['\n'] ++ joinSep ['\n'] (l2 :: rest2)).getLast? = ln.getLast?
      rw [List.append_assoc]
      rw [show (['\n'] ++ joinSep ['\n'] (l2 :: rest2) : List Char)
          = '\n' :: joinSep ['\n'] (l2 :: rest2) from rfl]
      rw [List.getLast?_append_cons, getLast?_cons_ne_nil _ hJ, hlast]

theorem natToStr_zero : natToStr 0 = ['0'] := by decide

theorem natToStr_one : natToStr 1 = ['1'] := by decide

theorem charElems_cells (grid : List (List Nat)) (f v : Char)
    (hc : ∀ r ∈ grid, ∀ x ∈ r, x = 0 ∨ x = 1) :
    charElems grid [f] [v]
      = grid.map (fun row => row.map (fun x => [cellChar f v x])) := by
  unfold charElems
  by_cases h1 : f = '1'
  · subst h1
    rw [if_neg (by decide), if_pos (by decide), List.map_map]
    apply List.map_congr_left
    intro r hr
    simp only [Function.comp_apply, List.map_map]
    apply List.map_congr_left
    intro x hx
    rcases hc r hr x hx with h | h <;> subst h <;>
      simp [replaceChar, cellChar, natToStr_zero, natToStr_one,
        show Nat.digitChar 0 = '0' from by decide, show Nat.digitChar 1 = '1' from by decide]
  · by_cases h0 : f = '0'
    · subst h0
      rw [if_pos (by decide), if_neg (by decide), List.map_map]
      apply List.map_congr_left
      intro r hr
      simp only [Function.comp_apply, List.map_map]
      apply List.map_congr_left
      intro x hx
      rcases hc r hr x hx with h | h <;> subst h <;>
        simp [replaceChar, cellChar, natToStr_zero, natToStr_one,
          show Nat.digitChar 0 = '0' from by decide, show Nat.digitChar 1 = '1' from by decide]
    · rw [if_pos (by simpa using h1), if_pos (by simpa using h0),
        List.map_map, List.map_map]
      apply List.map_congr_left
      intro r hr
      simp only [Function.comp_apply, List.map_map]
      apply List.map_congr_left
      intro x hx
      rcases hc r hr x hx with h | h <;> subst h <;>
        simp [replaceChar, cellChar, h0, h1, natToStr_zero, natToStr_one,
          show Nat.digitChar 0 = '0' from by decide, show Nat.digitChar 1 = '1' from by decide]

theorem mem_cellChar (f v : Char) (x : Nat) :
    cellChar f v x = f ∨ cellChar f v x = '1' ∨ cellChar f v x = v := by
  unfold cellChar
  by_cases hx : x = 0
  · simp [hx]
  · by_cases h1 : f = '1' <;> simp [hx, h1]

theorem gridToText_eq (grid : List (List Nat)) (f v : Char) (w : Nat)
    (hne : grid ≠ []) (hw : 0 < w) (hlen : ∀ r ∈ grid, r.length = w)
    (hc : ∀ r ∈ grid, ∀ x ∈ r, x = 0 ∨ x = 1)
    (hf : f ≠ '\n') (hv : v ≠ '\n') :
    gridToText grid [f] [v]
      = joinSep ['\n'] (grid.map (fun row => spaceJoin (row.map (cellChar f v)))) ++ ['\n'] := by
  show pyStrip '\n' ((((charElems grid [f] [v]).map (fun row => joinSep [' '] row)).map
      (fun l => l ++ ['\n'])).flatten) ++ ['\n'] = _
  rw [charElems_cells grid f v hc]
  have hlines : (grid.map (fun row => List.map (fun x => [cellChar f v x]) row)).map
      (fun row => joinSep [' '] row)
      = grid.map (fun row => spaceJoin (row.map (cellChar f v))) := by
    rw [List.map_map]
    apply List.map_congr_left
    intro r _
    simp only [Function.comp_apply]
    rw [show (List.map (fun x => [cellChar f v x]) r)
        = (r.map (cellChar f v)).map (fun c => [c]) by
      rw [List.map_map]; exact List.map_congr_left (fun x _ => rfl)]
    exact joinSep_singletons _
  rw [hlines]
  set lines := grid.map (fun row => spaceJoin (row.map (cellChar f v))) with hlinesdef
  have hlne : lines ≠ [] := by
    intro h
    rw [hlinesdef] at h
    exact hne (List.map_eq_nil_iff.mp h)
  have hlinechar : ∀ l ∈ lines, ∀ c ∈ l, c ≠ '\n' := by
    intro l hl c hcl
    rw [hlinesdef] at hl
    rcases List.mem_map.mp hl with ⟨r, hr, hrl⟩
    subst hrl
    rcases mem_spaceJoin _ c hcl with h | h
    · rcases List.mem_map.mp h with ⟨x, _, hx⟩
      rcases mem_cellChar f v x with h' | h' | h' <;> rw [← hx, h']
      · exact hf
      · decide
      · exact hv
    · subst h; decide
  have hlinene : ∀ l ∈ lines, l ≠ [] := by
    intro l hl
    rw [hlinesdef] at hl
    rcases List.mem_map.mp hl with ⟨r, hr, hrl⟩
    subst hrl
    apply spaceJoin_ne_nil
    intro hmapnil
    have hr0 := hlen r hr
    rw [List.map_eq_nil_iff.mp hmapnil] at hr0
    simp at hr0
    omega
  rw [flatten_lines_eq lines hlne]
  rw [pyStrip_append_nl (joinSep ['\n'] lines) ?hh ?hl]
  case hh =>
    intro c hcj
    cases hll : lines with
    | nil => exact absurd hll hlne
    | cons l rest =>
      rw [hll, joinSep_nl_head? l rest (hlinene l (by rw [hll]; simp))] at hcj
      have hc2 : l = c :: l.tail := List.eq_cons_of_mem_head? (Option.mem_def.mpr hcj)
      exact hlinechar l (by rw [hll]; simp) c (by rw [hc2]; simp)
  case hl =>
    intro c hcj
    rcases joinSep_nl_getLast? lines hlne hlinene with ⟨ln, hmem, hlast⟩
    rw [hlast] at hcj
    rcases List.mem_getLast?_eq_getLast (Option.mem_def.mpr hcj) with ⟨hne2, hceq⟩
    exact hlinechar ln hmem c (hceq ▸ List.getLast_mem hne2)

/-! ### Stack structure lemmas -/

theorem mem_zipN_shape [Inhabited α] {ls : List (List α)} {rs : List α}
    (h : rs ∈ zipN ls) : ∃ i, i < minLen ls ∧ rs = ls.map (fun l => l.getD i default) := by
  cases ls with
  | nil => simp [zipN] at h
  | cons l rest =>
    rcases List.mem_map.mp h with ⟨i, hi, hrs⟩
    exact ⟨i, List.mem_range.mp hi, hrs.symm⟩

theorem zipN_ne_nil_members [Inhabited α] {ls : List (List α)} {rs : List α}
    (hne : ls ≠ []) (h : rs ∈ zipN ls) : rs ≠ [] := by
  rcases mem_zipN_shape h with ⟨i, _, hrs⟩
  subst hrs
  intro hnil
  exact hne (List.map_eq_nil_iff.mp hnil)

theorem stackRow_ok (f : Char) (rs : List (List Char)) (hne : rs ≠ [])
    (h : ∀ a ∈ rs, ∀ b ∈ rs, a.length = b.length) :
    stackRow f rs = .ok (spaceJoin ((zipN (rs.map every2)).map (stackPixel f))) := by
  unfold stackRow
  cases rs with
  | nil => exact absurd rfl hne
  | cons a t =>
    have hded : ((a :: t).map List.length).dedup = [a.length] := by
      apply dedup_const
      · simp
      · intro x hx
        rcases List.mem_map.mp hx with ⟨b, hb, hbl⟩
        rw [← hbl]
        exact h b hb a (by simp)
    rw [if_neg (by rw [hded]; simp)]

theorem stackRow_error (f : Char) (rs : List (List Char)) {a b : List Char}
    (ha : a ∈ rs) (hb : b ∈ rs) (hab : a.length ≠ b.length) :
    stackRow f rs = .error (.valueError "Input layers have heterogeneous dimensions") := by
  unfold stackRow
  rw [if_pos]
  exact dedup_len_ne_one (List.mem_map_of_mem List.length ha)
    (List.mem_map_of_mem List.length hb) hab

theorem stack_ok (layers : List (List Char)) (f : Char)
    (hrows : ∀ rs ∈ zipN (layers.map pySplitlines), ∀ a ∈ rs, ∀ b ∈ rs,
      a.length = b.length) :
    stack layers [f] = .ok (joinSep ['\n']
      ((zipN (layers.map pySplitlines)).map
        (fun rs => spaceJoin ((zipN (rs.map every2)).map (stackPixel f)))) ++ ['\n']) := by
  show (match mapE (stackRow f) (zipN (layers.map pySplitlines)) with
    | Except.error e => Except.error e
    | Except.ok output_rows => Except.ok (joinSep ['\n'] output_rows ++ ['\n'])) = _
  rw [mapE_map_ok (zipN (layers.map pySplitlines)) ?hpw]
  case hpw =>
    intro rs hrs
    by_cases hlayers : layers = []
    · subst hlayers
      simp [zipN] at hrs
    · exact stackRow_ok f rs
        (zipN_ne_nil_members (fun hh => hlayers (List.map_eq_nil_iff.mp hh)) hrs)
        (hrows rs hrs)

theorem stackPixel_self_or_mem (f : Char) (ps : List Char) :
    stackPixel f ps = f ∨ stackPixel f ps ∈ ps := by
  unfold stackPixel
  cases hf : ps.filter (fun p => p ≠ ' ') with
  | nil => simp
  | cons a as =>
    right
    simp only [List.length_cons]
    rw [if_neg (by simp)]
    have hmem : (a :: as).getLastD f ∈ a :: as := by
      rw [List.getLastD_eq_getLast?,
        List.getLast?_eq_getLast_of_ne_nil (List.cons_ne_nil a as)]
      exact List.getLast_mem _
    have h2 : (ps.filter (fun p => p ≠ ' ')).getLastD f ∈ ps :=
      List.mem_of_mem_filter (by rw [hf]; exact hmem)
    rw [hf] at h2
    exact h2

/-! ### Render stage inversion lemmas -/

theorem validate_ok_inv {width : Int} {fill value : List Char}
    (h : validate width fill value = .ok ()) :
    fill.length = 1 ∧ value.length = 1 ∧ 0 < width := by
  unfold validate at h
  by_cases h1 : fill.length ≠ 1
  · rw [if_pos h1] at h; exact absurd h (by simp)
  · rw [if_neg h1] at h
    by_cases h2 : value.length ≠ 1
    · rw [if_pos h2] at h; exact absurd h (by simp)
    · rw [if_neg h2] at h
      by_cases h3 : width ≤ 0
      · rw [if_pos h3] at h; exact absurd h (by simp)
      · exact ⟨not_not.mp h1, not_not.mp h2, by omega⟩

theorem validate_ok {width : Int} {fill value : List Char}
    (h1 : fill.length = 1) (h2 : value.length = 1) (h3 : 0 < width) :
    validate width fill value = .ok () := by
  unfold validate
  rw [if_neg (by omega), if_neg (by omega), if_neg (by omega)]

theorem gridShape_ok_inv {bb : ℚ × ℚ × ℚ × ℚ} {width : Int} {h w : Nat} {tr : Affine}
    (hg : gridShape bb width = .ok (h, w, tr)) : 1 ≤ h ∧ w = width.toNat := by
  unfold gridShape at hg
  by_cases hz : (width : ℚ) = 0
  · rw [if_pos hz] at hg; exact absurd hg (by simp)
  · rw [if_neg hz] at hg
    by_cases hc : (bb.2.2.1 - bb.1) / (width : ℚ) = 0
    · rw [if_pos hc] at hg; exact absurd hg (by simp)
    · rw [if_neg hc] at hg
      set z : Int := pyInt ((bb.2.2.2 - bb.2.1) / ((bb.2.2.1 - bb.1) / (width : ℚ))) with hzdef
      by_cases hneg : (if z = 0 then 1 else z) < 0
      · rw [if_pos hneg] at hg; exact absurd hg (by simp)
      · rw [if_neg hneg] at hg
        have := (Except.ok.injEq _ _).mp hg
        have hh : (if z = 0 then 1 else z).toNat = h := congrArg Prod.fst this
        have hw2 : width.toNat = w := congrArg Prod.fst (congrArg Prod.snd this)
        constructor
        · rw [← hh]
          by_cases hz0 : z = 0
          · simp [hz0]
          · rw [if_neg hz0]
            rw [if_neg hz0] at hneg
            omega
        · exact hw2.symm

theorem rasterize_ok_inv {kernel : RKernel} {shapes : List GeomDict} {h w : Nat}
    {tr : Affine} {allT : Bool} {grid : List (List Nat)}
    (hr : rasterize kernel shapes h w tr allT = .ok grid) :
    grid.length = h ∧ (∀ r ∈ grid, r.length = w) ∧
      (∀ r ∈ grid, ∀ x ∈ r, x = 0 ∨ x = 1) := by
  unfold rasterize at hr
  by_cases hemp : shapes.isEmpty
  · rw [if_pos hemp] at hr; exact absurd hr (by simp)
  · rw [if_neg hemp] at hr
    have hgrid := ((Except.ok.injEq _ _).mp hr).symm
    subst hgrid
    refine ⟨by simp, ?_, ?_⟩
    · intro r hrm
      rcases List.mem_map.mp hrm with ⟨i, _, hri⟩
      rw [← hri]
      simp
    · intro r hrm x hx
      rcases List.mem_map.mp hrm with ⟨i, _, hri⟩
      rw [← hri] at hx
      rcases List.mem_map.mp hx with ⟨j, _, hxj⟩
      rw [← hxj]
      cases kernel shapes tr allT i j <;> simp

theorem renderGrid_ok_inv {kernel : RKernel} {src : GeoSource} {width : Int}
    {allT : Bool} {bb : Option (ℚ × ℚ × ℚ × ℚ)} {grid : List (List Nat)}
    (h : renderGrid kernel src width allT bb = .ok grid) :
    grid ≠ [] ∧ (∀ r ∈ grid, r.length = width.toNat) ∧
      (∀ r ∈ grid, ∀ x ∈ r, x = 0 ∨ x = 1) := by
  unfold renderGrid at h
  split at h
  · exact absurd h (by simp)
  case _ bbre hres =>
    split at h
    · exact absurd h (by simp)
    case _ hwtr hgs =>
      split at h
      · exact absurd h (by simp)
      case _ shapes hext =>
        obtain ⟨hh1, hwnat⟩ := gridShape_ok_inv hgs
        obtain ⟨hglen, hrlen, hcells⟩ := rasterize_ok_inv h
        refine ⟨?_, ?_, hcells⟩
        · intro hnil
          rw [hnil] at hglen
          simp at hglen
          omega
        · intro r hr
          rw [hrlen r hr, hwnat]

theorem render_ok_inv {kernel : RKernel} {src : GeoSource} {width : Int}
    {fill value : List Char} {allT : Bool} {bb : Option (ℚ × ℚ × ℚ × ℚ)}
    {out : List Char}
    (h : render_full kernel src width fill value allT bb = .ok out) :
    ∃ (f v : Char) (grid : List (List Nat)),
      fill = [f] ∧ value = [v] ∧ 0 < width ∧ grid ≠ [] ∧
      (∀ r ∈ grid, r.length = width.toNat) ∧
      (∀ r ∈ grid, ∀ x ∈ r, x = 0 ∨ x = 1) ∧
      out = gridToText grid fill value := by
  unfold render_full at h
  split at h
  · exact absurd h (by simp)
  case _ u hval =>
    split at h
    · exact absurd h (by simp)
    case _ grid hgrid =>
      obtain ⟨hf1, hv1, hwpos⟩ := validate_ok_inv (by cases u; exact hval)
      rcases List.length_eq_one.mp hf1 with ⟨f, hf⟩
      rcases List.length_eq_one.mp hv1 with ⟨v, hv⟩
      obtain ⟨hgne, hrlen, hcells⟩ := renderGrid_ok_inv hgrid
      exact ⟨f, v, grid, hf, hv, hwpos, hgne, hrlen, hcells,
        ((Except.ok.injEq _ _).mp h).symm⟩

theorem zipN_singleton [Inhabited α] (l : List α) :
    zipN [l] = l.map (fun x => [x]) := by
  show (List.range (minLen [l])).map (fun i => [l].map (fun l2 => l2.getD i default))
    = l.map (fun x => [x])
  have hm : minLen [l] = l.length := by simp [minLen]
  rw [hm]
  rw [show (fun i => [l].map (fun l2 => l2.getD i default))
      = (fun x => [x]) ∘ (fun i => l.getD i default) from rfl]
  rw [← List.map_map, range_getD]

theorem stackPixel_single (f c : Char) :
    stackPixel f [c] = if c = ' ' then f else c := by
  unfold stackPixel
  by_cases hc : c = ' ' <;> simp [hc]

theorem gridLine_no_nl (f v : Char) (hf : f ≠ '\n') (hv : v ≠ '\n') (row : List Nat) :
    '\n' ∉ spaceJoin (row.map (cellChar f v)) := by
  intro hmem
  rcases mem_spaceJoin _ _ hmem with h | h
  · rcases List.mem_map.mp h with ⟨x, _, hx⟩
    rcases mem_cellChar f v x with h' | h' | h' <;> rw [h'] at hx
    · exact hf hx
    · exact absurd hx (by decide)
    · exact hv hx
  · exact absurd h (by decide)

theorem gridToText_splitlines (grid : List (List Nat)) (f v : Char) (w : Nat)
    (hne : grid ≠ []) (hw : 0 < w) (hlen : ∀ r ∈ grid, r.length = w)
    (hc : ∀ r ∈ grid, ∀ x ∈ r, x = 0 ∨ x = 1)
    (hf : f ≠ '\n') (hv : v ≠ '\n') :
    pySplitlines (gridToText grid [f] [v])
      = grid.map (fun row => spaceJoin (row.map (cellChar f v))) := by
  rw [gridToText_eq grid f v w hne hw hlen hc hf hv]
  apply pySplitlines_joinSep
  · intro hnil
    exact hne (List.map_eq_nil_iff.mp hnil)
  · intro r hr
    rcases List.mem_map.mp hr with ⟨row, hrow, hrl⟩
    rw [← hrl]
    exact gridLine_no_nl f v hf hv row

set_option maxHeartbeats 1000000 in
theorem stack_single_layer (grid : List (List Nat)) (w : Nat) (f : Char)
    (hne : grid ≠ []) (hw : 0 < w) (hlen : ∀ r ∈ grid, r.length = w)
    (hc : ∀ r ∈ grid, ∀ x ∈ r, x = 0 ∨ x = 1)
    (hf1 : f ≠ '1') (hfn : f ≠ '\n') :
    stack [gridToText grid [' '] ['+']] [f] = .ok (gridToText grid [f] ['+']) := by
  have hsplit := gridToText_splitlines grid ' ' '+' w hne hw hlen hc (by decide) (by decide)
  have hrows : ∀ rs ∈ zipN ([gridToText grid [' '] ['+']].map pySplitlines),
      ∀ a ∈ rs, ∀ b ∈ rs, a.length = b.length := by
    intro rs hrs
    simp only [List.map_cons, List.map_nil, hsplit, zipN_singleton] at hrs
    rcases List.mem_map.mp hrs with ⟨x, _, rfl⟩
    intro a ha b hb
    simp only [List.mem_singleton] at ha hb
    rw [ha, hb]
  rw [stack_ok _ f hrows]
  congr 1
  rw [gridToText_eq grid f '+' w hne hw hlen hc hfn (by decide)]
  congr 1
  simp only [List.map_cons, List.map_nil, hsplit, zipN_singleton, List.map_map]
  congr 1
  apply List.map_congr_left
  intro row hrow
  simp only [Function.comp_apply]
  show spaceJoin ((zipN ([spaceJoin (row.map (cellChar ' ' '+'))].map every2)).map
    (stackPixel f)) = _
  simp only [List.map_cons, List.map_nil, every2_spaceJoin, zipN_singleton, List.map_map]
  congr 1
  apply List.map_congr_left
  intro x hx
  simp only [Function.comp_apply, stackPixel_single]
  rcases hc row hrow x hx with h | h <;> subst h <;> simp [cellChar, hf1]

theorem validate_fill_swap (width : Int) (f : Char) :
    validate width [f] ['+'] = validate width [' '] ['+'] := by
  simp [validate]

theorem stack_single_render (kernel : RKernel) (src : GeoSource) (width : Int)
    (allT : Bool) (bb : Option (ℚ × ℚ × ℚ × ℚ)) (f : Char)
    (hf1 : f ≠ '1') (hfn : f ≠ '\n') :
    (match render_full kernel src width [' '] ['+'] allT bb with
     | .error e => .error e
     | .ok layer => stack [layer] [f])
    = render_full kernel src width [f] ['+'] allT bb := by
  unfold render_full
  rw [validate_fill_swap width f]
  cases hv : validate width [' '] ['+'] with
  | error e => rfl
  | ok u =>
    cases hg : renderGrid kernel src width allT bb with
    | error e => rfl
    | ok grid =>
      obtain ⟨hgne, hrlen, hcells⟩ := renderGrid_ok_inv hg
      have hwpos : 0 < width := (validate_ok_inv (by cases u; exact hv)).2.2
      exact stack_single_layer grid width.toNat f hgne (by omega) hrlen hcells hf1 hfn

theorem every2_mem {c : Char} : ∀ {l : List Char}, c ∈ every2 l → c ∈ l := by
  intro l
  induction l using twoStepInduction with
  | h0 => intro h; simp [every2] at h
  | h1 a => intro h; simpa [every2] using h
  | h2 a b t ih =>
    intro h
    rw [show every2 (a :: b :: t) = a :: every2 t from by simp [every2]] at h
    rcases List.mem_cons.mp h with h | h
    · simp [h]
    · simp [List.mem_cons_of_mem, ih h]

theorem getD_map {l : List α} (g : α → β) {i : Nat} (d : α) (dd : β)
    (hi : i < l.length) : (l.map g).getD i dd = g (l.getD i d) := by
  rw [List.getD_eq_getElem?_getD, List.getElem?_map, List.getElem?_eq_getElem hi,
    List.getD_eq_getElem?_getD, List.getElem?_eq_getElem hi]
  rfl

theorem foldl_min_pos : ∀ (ls : List (List α)) (a : Nat), 0 < a →
    (∀ l ∈ ls, 0 < l.length) → 0 < ls.foldl (fun m l2 => min m l2.length) a := by
  intro ls
  induction ls with
  | nil => intro a ha _; exact ha
  | cons l rest ih =>
    intro a ha h
    simp only [List.foldl_cons]
    exact ih (min a l.length) (lt_min ha (h l (by simp)))
      (fun x hx => h x (List.mem_cons_of_mem _ hx))

theorem minLen_pos {ls : List (List α)} (hne : ls ≠ []) (h : ∀ l ∈ ls, l ≠ []) :
    0 < minLen ls := by
  cases ls with
  | nil => exact absurd rfl hne
  | cons l rest =>
    show 0 < rest.foldl (fun m l2 => min m l2.length) l.length
    exact foldl_min_pos rest l.length
      (List.length_pos.mpr (h l (by simp)))
      (fun x hx => List.length_pos.mpr (h x (List.mem_cons_of_mem _ hx)))

theorem zipN_lines_no_nl {layers : List (List Char)} {rs : List (List Char)}
    (hrs : rs ∈ zipN (layers.map pySplitlines)) : ∀ a ∈ rs, '\n' ∉ a := by
  rcases mem_zipN_shape hrs with ⟨i, _, rfl⟩
  intro a ha
  rcases List.mem_map.mp ha with ⟨lns, hlns, hget⟩
  rcases List.mem_map.mp hlns with ⟨t, _, rfl⟩
  rcases getD_mem_or_default (pySplitlines t) i default with hm | hm
  · rw [hget] at hm
    exact mem_pySplitlines_no_nl t a hm
  · rw [hget] at hm
    rw [hm]
    exact List.not_mem_nil '\n'

theorem stackRow_output_no_nl (f : Char) (hfn : f ≠ '\n') (rs : List (List Char))
    (hno : ∀ a ∈ rs, '\n' ∉ a) :
    '\n' ∉ spaceJoin ((zipN (rs.map every2)).map (stackPixel f)) := by
  intro hmem
  rcases mem_spaceJoin _ _ hmem with h | h
  · rcases List.mem_map.mp h with ⟨ps, hps, hval⟩
    rcases stackPixel_self_or_mem f ps with h' | h'
    · rw [hval] at h'
      exact hfn h'.symm
    · rw [hval] at h'
      rcases mem_zipN_shape hps with ⟨j, _, rfl⟩
      rcases List.mem_map.mp h' with ⟨e2, he2, hc⟩
      rcases List.mem_map.mp he2 with ⟨a, ha, rfl⟩
      rcases getD_mem_or_default (every2 a) j default with hm | hm
      · rw [hc] at hm
        exact hno a ha (every2_mem hm)
      · rw [hc] at hm
        exact absurd hm (by decide)
  · exact absurd h (by decide)

/-! ### Claim theorems -/

/-- C8: `render` fails with a ValueError-class error whenever `width <= 0`
or the fill or value symbol is not exactly one character, and the
validation happens before any geometry is consumed: the error is the
same for every source and kernel, including sources whose consumption
would itself fail. -/
theorem render_invalid_params_error (kernel : RKernel) (src : GeoSource) (width : Int)
    (fill value : List Char) (allT : Bool) (bb : Option (ℚ × ℚ × ℚ × ℚ))
    (h : width ≤ 0 ∨ fill.length ≠ 1 ∨ value.length ≠ 1) :
    ∃ m, render_full kernel src width fill value allT bb = .error (.valueError m) := by
  have hval : ∃ m, validate width fill value = .error (.valueError m) := by
    unfold validate
    by_cases h1 : fill.length ≠ 1
    · exact ⟨_, by rw [if_pos h1]⟩
    · rw [if_neg h1]
      by_cases h2 : value.length ≠ 1
      · exact ⟨_, by rw [if_pos h2]⟩
      · rw [if_neg h2]
        have h3 : width ≤ 0 := by
          rcases h with h | h | h
          · exact h
          · exact absurd h h1
          · exact absurd h h2
        exact ⟨_, by rw [if_pos h3]⟩
  rcases hval with ⟨m, hm⟩
  refine ⟨m, ?_⟩
  unfold render_full
  rw [hm]

/-- Witness for C8: with width 0 the error is raised even for a source
whose only element is not a recognizable geometry at all. -/
theorem render_invalid_params_error_witness :
    (0 : Int) ≤ 0 ∧
    ∃ m, render_full kernelAll ⟨[GeoElem.plain (GeomDict.mk none none none)], false, false⟩
      0 [' '] ['+'] false none = .error (.valueError m) :=
  ⟨by decide, render_invalid_params_error kernelAll
    ⟨[GeoElem.plain (GeomDict.mk none none none)], false, false⟩
    0 [' '] ['+'] false none (Or.inl (by decide))⟩

/-- C10: with an empty geometry source and no explicit bbox, the
element-wise min/max reduction is applied to an empty coordinate list
and `render` raises the ValueError of Python `min` on an empty
sequence, rather than producing a blank picture. -/
theorem render_empty_source_min_error (kernel : RKernel) (width : Int)
    (fill value : List Char) (allT : Bool) (isGen sp : Bool)
    (h1 : fill.length = 1) (h2 : value.length = 1) (h3 : 0 < width) :
    render_full kernel ⟨[], isGen, sp⟩ width fill value allT none
      = .error (.valueError "min arg is an empty sequence") := by
  unfold render_full
  rw [validate_ok h1 h2 h3]
  have hrg : renderGrid kernel ⟨[], isGen, sp⟩ width allT none
      = .error (.valueError "min arg is an empty sequence") := by
    unfold renderGrid resolveSource inferBounds geometry_extractor
    rfl
  rw [hrg]

/-- Witness for C10: the concrete empty generator source. -/
theorem render_empty_source_min_error_witness :
    render_full kernelAll ⟨[], true, true⟩ 40 [' '] ['+'] false none
      = .error (.valueError "min arg is an empty sequence") :=
  render_empty_source_min_error kernelAll 40 [' '] ['+'] false true true
    (by decide) (by decide) (by decide)

/-- C9 counterexample: a mapping that carries only coordinate data (no
type tag) is not passed through unchanged; the unconditional lookup of
the type tag raises a KeyError-class error instead. -/
theorem extractor_coords_no_type_key_error :
    extractDict (GeomDict.mk none (some [((0 : ℚ), (0 : ℚ))]) none)
        = .error (.keyError "type")
      ∧ extractDict (GeomDict.mk none (some [((0 : ℚ), (0 : ℚ))]) none)
        ≠ .ok (GeomDict.mk none (some [((0 : ℚ), (0 : ℚ))]) none) :=
  ⟨rfl, fun h => Except.noConfusion h⟩

/-- C9 amended: a geometry-interface element is converted first and then
treated as a plain mapping; among plain mappings, the type tag is read
unconditionally (a mapping without it raises KeyError even when it has
coordinate data); a Feature yields its geometry sub-object; a non-Feature
mapping with coordinate data is yielded unchanged; and a non-Feature
mapping without coordinate data raises the TypeError-class error. -/
theorem extractor_element_cases (d m : GeomDict) :
    (extractElem (GeoElem.iface m) = extractDict m) ∧
    (d.type? = none → extractDict d = .error (.keyError "type")) ∧
    (∀ g, d.type? = some "Feature" → d.geometry? = some g → extractDict d = .ok g) ∧
    (∀ t, d.type? = some t → t ≠ "Feature" → d.coords?.isSome → extractDict d = .ok d) ∧
    (∀ t, d.type? = some t → t ≠ "Feature" → ¬ d.coords?.isSome →
      extractDict d = .error (.typeError
        "An input object is not a feature, geometry, or object supporting the geometry interface")) := by
  refine ⟨rfl, ?_, ?_, ?_, ?_⟩
  · intro h
    unfold extractDict
    rw [h]
  · intro g h hg
    unfold extractDict
    rw [h, hg]
    simp
  · intro t h hne hco
    unfold extractDict
    rw [h]
    simp only [if_neg hne, if_pos hco]
  · intro t h hne hco
    unfold extractDict
    rw [h]
    simp only [if_neg hne, if_neg hco]

/-- Witness for C9: a plain Point mapping with coordinates is yielded
unchanged, and a Feature yields its geometry. -/
theorem extractor_element_cases_witness :
    extractDict (GeomDict.mk (some "Point") (some [((0 : ℚ), (0 : ℚ))]) none)
      = .ok (GeomDict.mk (some "Point") (some [((0 : ℚ), (0 : ℚ))]) none) :=
  (extractor_element_cases (GeomDict.mk (some "Point") (some [((0 : ℚ), (0 : ℚ))]) none)
    (GeomDict.mk none none none)).2.2.2.1 "Point" rfl (by decide) (by rfl)

/-- C4 counterexample: with fill equal to the digit 1 and value `'+'`, a
1 cell of the occupancy grid is not replaced by the value character: the
second replacement pass is skipped (the source guard compares the fill,
not the value, against the digit 1) and the cell stays as the digit 1. -/
theorem render_fill_one_value_not_applied :
    charElems [[0, 1]] ['1'] ['+'] = [[['1'], ['1']]]
      ∧ (['1'] : List Char) ≠ ['+'] :=
  ⟨by decide, by decide⟩

/-- C4 amended: the grid-to-character substitution maps every 0 cell to
the fill; it maps every 1 cell to the value whenever the fill is not the
digit 1; when the fill is the digit 1 the value substitution is skipped
and 1 cells render as the digit 1. -/
theorem render_char_substitution (grid : List (List Nat)) (f v : Char)
    (hc : ∀ r ∈ grid, ∀ x ∈ r, x = 0 ∨ x = 1) :
    charElems grid [f] [v]
      = grid.map (fun row => row.map (fun x =>
          if x = 0 then [f] else if f = '1' then ['1'] else [v])) := by
  rw [charElems_cells grid f v hc]
  apply List.map_congr_left
  intro r _
  apply List.map_congr_left
  intro x _
  unfold cellChar
  split_ifs <;> rfl

/-- Witness for C4: the substitution on a concrete one-row grid with
fill `'.'` and value `'*'`. -/
theorem render_char_substitution_witness :
    charElems [[0, 1]] ['.'] ['*']
      = [[0, 1]].map (fun row => row.map (fun x =>
          if x = 0 then ['.'] else if '.' = '1' then ['1'] else ['*'])) :=
  render_char_substitution [[0, 1]] '.' '*' (by decide)

/-- C3 counterexample: a finite single-pass source that is not a
generator (e.g. a plain iterator over a list) is not duplicated; bounds
inference exhausts it, the rasterizer receives no geometries and
`render` fails, while the same geometries as a materialized list render
fine. -/
theorem render_single_pass_iter_ne_materialized :
    render_full kernelAll ⟨[GeoElem.plain (segGeom 0 0 2 1)], false, true⟩
        2 [' '] ['+'] false none
      = .error (.valueError "No valid geometry objects found for rasterize")
    ∧ render_full kernelAll ⟨[GeoElem.plain (segGeom 0 0 2 1)], false, false⟩
        2 [' '] ['+'] false none
      = .ok ['+', ' ', '+', '\n']
    ∧ render_full kernelAll ⟨[GeoElem.plain (segGeom 0 0 2 1)], false, true⟩
        2 [' '] ['+'] false none
      ≠ render_full kernelAll ⟨[GeoElem.plain (segGeom 0 0 2 1)], false, false⟩
        2 [' '] ['+'] false none := by
  have hA : render_full kernelAll ⟨[GeoElem.plain (segGeom 0 0 2 1)], false, true⟩
      2 [' '] ['+'] false none
      = .error (.valueError "No valid geometry objects found for rasterize") := by
    simp [render_full, validate, renderGrid, resolveSource, inferBounds, geometry_extractor,
      mapE, extractElem, extractDict, segGeom, GeomDict.type?, GeomDict.coords?,
      GeomDict.geometry?, shapeBounds, quadFlat, every4, pyMin, pyMax, gridShape, pyInt,
      rasterize, kernelAll]
    norm_num [Rat.floor]
  have hB : render_full kernelAll ⟨[GeoElem.plain (segGeom 0 0 2 1)], false, false⟩
      2 [' '] ['+'] false none = .ok ['+', ' ', '+', '\n'] := by
    simp [render_full, validate, renderGrid, resolveSource, inferBounds, geometry_extractor,
      mapE, extractElem, extractDict, segGeom, GeomDict.type?, GeomDict.coords?,
      GeomDict.geometry?, shapeBounds, quadFlat, every4, pyMin, pyMax, gridShape, pyInt,
      rasterize, kernelAll, gridToText, charElems, natToStr, replaceChar, joinSep, pyStrip,
      Nat.digitChar]
    norm_num [Rat.floor]
    decide
  refine ⟨hA, hB, ?_⟩
  intro h
  rw [hA, hB] at h
  exact Except.noConfusion h

/-- C3 amended: duplication of a one-shot cursor happens exactly for
generator-type sources; for those, `render` with inferred bounds equals
`render` on the materialized (multi-pass) list of the same geometries. -/
theorem render_generator_tee_eq (kernel : RKernel) (elems : List GeoElem) (width : Int)
    (fill value : List Char) (allT : Bool) :
    render_full kernel ⟨elems, true, true⟩ width fill value allT none
      = render_full kernel ⟨elems, false, false⟩ width fill value allT none := rfl

/-- C6 counterexample: with fill `'1'`, single-layer stacking is not
byte-identical to re-rendering: the stack keeps the value character at
occupied cells while the re-render leaves the digit 1 there (the value
substitution is skipped when the fill is the digit 1). -/
theorem stack_single_layer_fill_one_ne :
    (match render_full kernelAll ⟨[GeoElem.plain (segGeom 0 0 2 1)], false, false⟩
        2 [' '] ['+'] false none with
     | Except.error e => Except.error e
     | Except.ok layer => stack [layer] ['1'])
      = .ok ['+', ' ', '+', '\n']
    ∧ render_full kernelAll ⟨[GeoElem.plain (segGeom 0 0 2 1)], false, false⟩
        2 ['1'] ['+'] false none
      = .ok ['1', ' ', '1', '\n']
    ∧ (Except.ok ['+', ' ', '+', '\n'] : Except PyErr (List Char))
      ≠ .ok ['1', ' ', '1', '\n'] := by
  have hA : render_full kernelAll ⟨[GeoElem.plain (segGeom 0 0 2 1)], false, false⟩
      2 [' '] ['+'] false none = .ok ['+', ' ', '+', '\n'] := by
    simp [render_full, validate, renderGrid, resolveSource, inferBounds, geometry_extractor,
      mapE, extractElem, extractDict, segGeom, GeomDict.type?, GeomDict.coords?,
      GeomDict.geometry?, shapeBounds, quadFlat, every4, pyMin, pyMax, gridShape, pyInt,
      rasterize, kernelAll, gridToText, charElems, natToStr, replaceChar, joinSep, pyStrip,
      Nat.digitChar]
    norm_num [Rat.floor]
    decide
  have hB : render_full kernelAll ⟨[GeoElem.plain (segGeom 0 0 2 1)], false, false⟩
      2 ['1'] ['+'] false none = .ok ['1', ' ', '1', '\n'] := by
    simp [render_full, validate, renderGrid, resolveSource, inferBounds, geometry_extractor,
      mapE, extractElem, extractDict, segGeom, GeomDict.type?, GeomDict.coords?,
      GeomDict.geometry?, shapeBounds, quadFlat, every4, pyMin, pyMax, gridShape, pyInt,
      rasterize, kernelAll, gridToText, charElems, natToStr, replaceChar, joinSep, pyStrip,
      Nat.digitChar]
    norm_num [Rat.floor]
    decide
  refine ⟨?_, hB, ?_⟩
  · rw [hA]
    rfl
  · intro h
    have := (Except.ok.injEq _ _).mp h
    exact absurd this (by decide)

/-- C6 amended: for every one-character fill other than the digit 1 (and
other than the line separator, which the symbol set excludes),
single-layer stacking of a layer rendered with the default space fill is
byte-identical to re-rendering with that fill: it substitutes the fill
in background cells and never changes content cells. -/
theorem stack_single_layer_fill_subst (kernel : RKernel) (src : GeoSource) (width : Int)
    (allT : Bool) (bb : Option (ℚ × ℚ × ℚ × ℚ)) (f : Char)
    (hf1 : f ≠ '1') (hfn : f ≠ '\n') :
    (match render_full kernel src width [' '] ['+'] allT bb with
     | Except.error e => Except.error e
     | Except.ok layer => stack [layer] [f])
    = render_full kernel src width [f] ['+'] allT bb :=
  stack_single_render kernel src width allT bb f hf1 hfn

/-- Witness for C6: the identity at a concrete dot fill. -/
theorem stack_single_layer_fill_subst_witness :
    (match render_full kernelAll ⟨[GeoElem.plain (segGeom 0 0 2 1)], false, false⟩
        2 [' '] ['+'] false none with
     | Except.error e => Except.error e
     | Except.ok layer => stack [layer] ['.'])
    = render_full kernelAll ⟨[GeoElem.plain (segGeom 0 0 2 1)], false, false⟩
        2 ['.'] ['+'] false none :=
  stack_single_layer_fill_subst kernelAll ⟨[GeoElem.plain (segGeom 0 0 2 1)], false, false⟩
    2 false none '.' (by decide) (by decide)

/-- C1 counterexample: two layers with different line counts (one and
two lines) but equal line lengths within the aligned row do NOT make
`stack` fail; the extra line of the taller layer is silently dropped
and stacking succeeds with one output row. -/
theorem stack_truncates_line_counts :
    (pySplitlines ['+', '\n']).length ≠ (pySplitlines ['x', '\n', 'x', '\n']).length
    ∧ stack [['+', '\n'], ['x', '\n', 'x', '\n']] [' '] = .ok ['x', '\n'] :=
  ⟨by decide, by rfl⟩

/-- C1 amended: `stack` raises its ValueError exactly for heterogeneous
line lengths within an aligned row (up to the shortest layer's line
count); layers that differ only in line count are not an error - the
rows are silently truncated to the shortest layer's line count. -/
theorem stack_hetero_error_and_truncation (layers : List (List Char)) (f : Char)
    (hfn : f ≠ '\n') :
    ((∃ rs ∈ zipN (layers.map pySplitlines), ∃ a ∈ rs, ∃ b ∈ rs, a.length ≠ b.length) →
      ∃ e, stack layers [f] = .error e) ∧
    (layers ≠ [] → (∀ t ∈ layers, pySplitlines t ≠ []) →
      (∀ rs ∈ zipN (layers.map pySplitlines), ∀ a ∈ rs, ∀ b ∈ rs, a.length = b.length) →
      ∃ out, stack layers [f] = .ok out ∧
        (pySplitlines out).length = minLineCount layers) := by
  constructor
  · rintro ⟨rs, hrs, a, ha, b, hb, hab⟩
    rcases mapE_error_of_mem (zipN (layers.map pySplitlines)) rs hrs
      ⟨_, stackRow_error f rs ha hb hab⟩ with ⟨e, he⟩
    refine ⟨e, ?_⟩
    show (match mapE (stackRow f) (zipN (layers.map pySplitlines)) with
      | Except.error e => Except.error e
      | Except.ok output_rows => Except.ok (joinSep ['\n'] output_rows ++ ['\n'])) = _
    rw [he]
  · intro hne hlines hhomo
    refine ⟨_, stack_ok layers f hhomo, ?_⟩
    have hlsne : layers.map pySplitlines ≠ [] := fun h => hne (List.map_eq_nil_iff.mp h)
    have hnonempty : ∀ l ∈ layers.map pySplitlines, l ≠ [] := by
      intro l hl
      rcases List.mem_map.mp hl with ⟨t, ht, rfl⟩
      exact hlines t ht
    have hpos := minLen_pos hlsne hnonempty
    have hrlen : (zipN (layers.map pySplitlines)).length
        = minLen (layers.map pySplitlines) := zipN_length hlsne
    have hrows_ne : (zipN (layers.map pySplitlines)).map
        (fun rs => spaceJoin ((zipN (rs.map every2)).map (stackPixel f))) ≠ [] := by
      intro h
      have := List.map_eq_nil_iff.mp h
      rw [this] at hrlen
      simp at hrlen
      omega
    rw [pySplitlines_joinSep _ hrows_ne ?nonl]
    case nonl =>
      intro r hr
      rcases List.mem_map.mp hr with ⟨rs, hrs, rfl⟩
      exact stackRow_output_no_nl f hfn rs (zipN_lines_no_nl hrs)
    rw [List.length_map, hrlen]
    rfl

/-- Witness for C1: the truncation branch applied to the concrete layers
of the counterexample with a dot fill. -/
theorem stack_hetero_error_and_truncation_witness :
    ∃ out, stack [['+', '\n'], ['x', '\n', 'x', '\n']] ['.'] = .ok out ∧
      (pySplitlines out).length = minLineCount [['+', '\n'], ['x', '\n', 'x', '\n']] :=
  (stack_hetero_error_and_truncation [['+', '\n'], ['x', '\n', 'x', '\n']] '.'
    (by decide)).2 (by decide) (by decide) (by decide)

theorem render_x_degenerate_error (kernel : RKernel) (src : GeoSource) (width : Int)
    (fill value : List Char) (allT : Bool) (x y0 y1 : ℚ)
    (h1 : fill.length = 1) (h2 : value.length = 1) (h3 : 0 < width) :
    render_full kernel src width fill value allT (some (x, y0, x, y1))
      = .error .zeroDivisionError := by
  have hw0 : ¬((width : ℚ) = 0) := by
    simp only [Int.cast_eq_zero]
    omega
  have hg : gridShape (x, y0, x, y1) width = .error .zeroDivisionError := by
    simp [gridShape, hw0]
  have hrg : renderGrid kernel src width allT (some (x, y0, x, y1))
      = .error .zeroDivisionError := by
    simp [renderGrid, resolveSource, hg]
  simp [render_full, validate_ok h1 h2 h3, hrg]

theorem render_y_degenerate_ok (kernel : RKernel) (src : GeoSource) (width : Int)
    (f v : Char) (allT : Bool) (x0 x1 y : ℚ) (gs : List GeomDict)
    (hx : x0 < x1) (hw : 0 < width) (hfn : f ≠ '\n') (hvn : v ≠ '\n')
    (hext : geometry_extractor src.elems = .ok gs) (hgs : gs ≠ []) :
    ∃ out, render_full kernel src width [f] [v] allT (some (x0, y, x1, y)) = .ok out ∧
      (pySplitlines out).length = 1 ∧
      ∀ ln ∈ pySplitlines out, (every2 ln).length = width.toNat := by
  have hw0 : ¬((width : ℚ) = 0) := by
    simp only [Int.cast_eq_zero]
    omega
  have hcs : ((x1 - x0) / (width : ℚ)) ≠ 0 :=
    div_ne_zero (sub_ne_zero.mpr (ne_of_gt hx)) hw0
  have hg : gridShape (x0, y, x1, y) width
      = .ok (1, width.toNat, Affine.from_gdal x0 ((x1 - x0) / (width : ℚ)) 0 y 0
          (-((x1 - x0) / (width : ℚ)))) := by
    simp [gridShape, hw0, hcs, sub_self, zero_div]
    norm_num [pyInt, Rat.floor]
  set tr : Affine := Affine.from_gdal x0 ((x1 - x0) / (width : ℚ)) 0 y 0
    (-((x1 - x0) / (width : ℚ))) with htrdef
  set grid0 : List (List Nat) := (List.range 1).map (fun r =>
    (List.range width.toNat).map (fun c => if kernel gs tr allT r c then 1 else 0))
    with hgrid0def
  have hrast : rasterize kernel gs 1 width.toNat tr allT = .ok grid0 := by
    unfold rasterize
    rw [if_neg (by simp [hgs])]
  have hrg : renderGrid kernel src width allT (some (x0, y, x1, y)) = .ok grid0 := by
    simp only [renderGrid, resolveSource, hg, hext]
    exact hrast
  have hrender : render_full kernel src width [f] [v] allT (some (x0, y, x1, y))
      = .ok (gridToText grid0 [f] [v]) := by
    simp [render_full, validate_ok (show ([f] : List Char).length = 1 from rfl)
      (show ([v] : List Char).length = 1 from rfl) hw, hrg]
  obtain ⟨hglen, hrlen, hcells⟩ := rasterize_ok_inv hrast
  have hgne : grid0 ≠ [] := by
    intro h
    rw [h] at hglen
    simp at hglen
  have hwn : 0 < width.toNat := by omega
  have hsplit := gridToText_splitlines grid0 f v width.toNat hgne hwn hrlen hcells hfn hvn
  refine ⟨gridToText grid0 [f] [v], hrender, ?_, ?_⟩
  · rw [hsplit, List.length_map, hglen]
  · intro ln hln
    rw [hsplit] at hln
    rcases List.mem_map.mp hln with ⟨row, hrow, rfl⟩
    rw [every2_spaceJoin, List.length_map]
    exact hrlen row hrow

/-- C2 counterexample: the inferred bounds of a single-point geometry
are horizontally degenerate (x_min = x_max), so `cell_size` is zero and
the height computation divides by zero: `render` crashes with a
ZeroDivisionError instead of producing a one-row picture. -/
theorem render_degenerate_x_extent_crash :
    render_full kernelAll ⟨[GeoElem.plain (pointGeom 0 0)], false, false⟩
      5 [' '] ['+'] false none = .error .zeroDivisionError := by
  simp [render_full, validate, renderGrid, resolveSource, inferBounds, geometry_extractor,
    mapE, extractElem, extractDict, pointGeom, GeomDict.type?, GeomDict.coords?,
    GeomDict.geometry?, shapeBounds, quadFlat, every4, pyMin, pyMax, gridShape, pyInt]

/-- C2 amended: a degenerate vertical extent (y_min = y_max with
x_min < x_max) does not crash: the computed height 0 is clamped to 1
and the output has exactly `width` columns and one row.  A degenerate
horizontal extent (x_min = x_max), however - in particular the inferred
bounds of any single-point geometry - makes the cell size zero and
`render` crashes with a ZeroDivisionError before rasterization. -/
theorem render_degenerate_extent_cases :
    (∀ (kernel : RKernel) (src : GeoSource) (width : Int) (fill value : List Char)
        (allT : Bool) (x y0 y1 : ℚ), fill.length = 1 → value.length = 1 → 0 < width →
        render_full kernel src width fill value allT (some (x, y0, x, y1))
          = .error .zeroDivisionError) ∧
    (∀ (kernel : RKernel) (src : GeoSource) (width : Int) (f v : Char) (allT : Bool)
        (x0 x1 y : ℚ) (gs : List GeomDict), x0 < x1 → 0 < width → f ≠ '\n' → v ≠ '\n' →
        geometry_extractor src.elems = .ok gs → gs ≠ [] →
        ∃ out, render_full kernel src width [f] [v] allT (some (x0, y, x1, y)) = .ok out ∧
          (pySplitlines out).length = 1 ∧
          ∀ ln ∈ pySplitlines out, (every2 ln).length = width.toNat) :=
  ⟨fun kernel src width fill value allT x y0 y1 h1 h2 h3 =>
      render_x_degenerate_error kernel src width fill value allT x y0 y1 h1 h2 h3,
    fun kernel src width f v allT x0 x1 y gs hx hw hfn hvn hext hgs =>
      render_y_degenerate_ok kernel src width f v allT x0 x1 y gs hx hw hfn hvn hext hgs⟩

/-- Witness for C2: a zero-height explicit bbox over a two-point segment
still renders one row of three columns. -/
theorem render_degenerate_extent_cases_witness :
    ∃ out, render_full kernelAll ⟨[GeoElem.plain (segGeom 0 0 2 1)], false, false⟩
        3 ['.'] ['*'] false (some (0, 7, 2, 7)) = .ok out ∧
      (pySplitlines out).length = 1 ∧
      ∀ ln ∈ pySplitlines out, (every2 ln).length = (3 : Int).toNat :=
  render_degenerate_extent_cases.2 kernelAll
    ⟨[GeoElem.plain (segGeom 0 0 2 1)], false, false⟩ 3 '.' '*' false 0 2 7
    [segGeom 0 0 2 1] (by norm_num) (by decide) (by decide) (by decide)
    (by rfl) (List.cons_ne_nil _ _)

theorem getD_mem_of_lt {l : List α} {i : Nat} (d : α) (hi : i < l.length) :
    l.getD i d ∈ l := by
  rw [List.getD_eq_getElem?_getD, List.getElem?_eq_getElem hi]
  simp [List.getElem_mem hi]

/-- C7: every successful `render` output is the serialization of its
occupancy grid with one line per grid row (and at least one row): there
is a list of cell-character rows, one per grid row, each holding exactly
`width` single characters, such that the lines of the output are exactly
these rows joined with single spaces between consecutive characters
(`spaceJoin`, visual line length `2*width - 1`); the lines are joined by
the line separator with exactly one trailing separator at the end of the
whole block and none extra per row.  The fill and value symbols are
printable per the data model, so the line separator itself is
excluded. -/
theorem render_serialization_structure (kernel : RKernel) (src : GeoSource) (width : Int)
    (fill value : List Char) (allT : Bool) (bb : Option (ℚ × ℚ × ℚ × ℚ)) (out : List Char)
    (hfn : fill ≠ ['\n']) (hvn : value ≠ ['\n'])
    (h : render_full kernel src width fill value allT bb = .ok out) :
    ∃ (grid : List (List Nat)) (cellRows : List (List Char)),
      out = gridToText grid fill value ∧
      1 ≤ grid.length ∧
      cellRows.length = grid.length ∧
      (∀ cr ∈ cellRows, cr.length = width.toNat) ∧
      pySplitlines out = cellRows.map spaceJoin ∧
      (pySplitlines out).length = grid.length ∧
      (∀ ln ∈ pySplitlines out, ln.length = 2 * width.toNat - 1) ∧
      out = joinSep ['\n'] (pySplitlines out) ++ ['\n'] := by
  rcases render_ok_inv h with ⟨f, v, grid, hf, hv, hwpos, hgne, hrlen, hcells, hout⟩
  subst hf
  subst hv
  subst hout
  have hfc : f ≠ '\n' := fun hh => hfn (by rw [hh])
  have hvc : v ≠ '\n' := fun hh => hvn (by rw [hh])
  have hwn : 0 < width.toNat := by omega
  have hsplit := gridToText_splitlines grid f v width.toNat hgne hwn hrlen hcells hfc hvc
  refine ⟨grid, grid.map (fun row => row.map (cellChar f v)), rfl, ?_, ?_, ?_, ?_, ?_, ?_, ?_⟩
  · exact List.length_pos.mpr hgne
  · rw [List.length_map]
  · intro cr hcr
    rcases List.mem_map.mp hcr with ⟨row, hrow, rfl⟩
    rw [List.length_map]
    exact hrlen row hrow
  · rw [hsplit, List.map_map]
    rfl
  · rw [hsplit, List.length_map]
  · intro ln hln
    rw [hsplit] at hln
    rcases List.mem_map.mp hln with ⟨row, hrow, rfl⟩
    have hrne : row.map (cellChar f v) ≠ [] := by
      intro hh
      have hlen2 := hrlen row hrow
      rw [List.map_eq_nil_iff.mp hh] at hlen2
      simp at hlen2
      omega
    rw [spaceJoin_length _ hrne, List.length_map, hrlen row hrow]
  · rw [hsplit]
    exact gridToText_eq grid f v width.toNat hgne hwn hrlen hcells hfc hvc

/-- Witness for C7: the full structure facts on a concrete two-column,
one-row rendering. -/
theorem render_serialization_structure_witness :
    ∃ (grid : List (List Nat)) (cellRows : List (List Char)),
      ['+', ' ', '+', '\n'] = gridToText grid [' '] ['+'] ∧
      1 ≤ grid.length ∧
      cellRows.length = grid.length ∧
      (∀ cr ∈ cellRows, cr.length = (2 : Int).toNat) ∧
      pySplitlines ['+', ' ', '+', '\n'] = cellRows.map spaceJoin ∧
      (pySplitlines ['+', ' ', '+', '\n']).length = grid.length ∧
      (∀ ln ∈ pySplitlines ['+', ' ', '+', '\n'], ln.length = 2 * (2 : Int).toNat - 1) ∧
      ['+', ' ', '+', '\n']
        = joinSep ['\n'] (pySplitlines ['+', ' ', '+', '\n']) ++ ['\n'] :=
  render_serialization_structure kernelAll
    ⟨[GeoElem.plain (segGeom 0 0 2 1)], false, false⟩ 2 [' '] ['+'] false none
    ['+', ' ', '+', '\n'] (by decide) (by decide)
    (by
      simp [render_full, validate, renderGrid, resolveSource, inferBounds,
        geometry_extractor, mapE, extractElem, extractDict, segGeom, GeomDict.type?,
        GeomDict.coords?, GeomDict.geometry?, shapeBounds, quadFlat, every4, pyMin, pyMax,
        gridShape, pyInt, rasterize, kernelAll, gridToText, charElems, natToStr,
        replaceChar, joinSep, pyStrip, Nat.digitChar]
      norm_num [Rat.floor]
      decide)

/-- C5: stacking equally-shaped layers succeeds, and at every cell the
output character is the character of the topmost (last) layer whose
character there is not the space character - `topmostDrawn`, written
from the spec's own words - with the new fill character when every layer
is space there.  In particular, wherever two layers overlap with
non-space characters the result is the topmost layer's character. -/
theorem stack_topmost_nonspace_wins (layers : List (List Char)) (f : Char) (h L : Nat)
    (hlay : layers ≠ []) (hfn : f ≠ '\n')
    (hh : ∀ t ∈ layers, (pySplitlines t).length = h)
    (hL : ∀ t ∈ layers, ∀ ln ∈ pySplitlines t, ln.length = L) :
    ∃ out, stack layers [f] = .ok out ∧
      ∀ i j, i < h → j < (L + 1) / 2 →
        layerCell out i j
          = (topmostDrawn (layers.map (fun t => layerCell t i j))).getD f := by
  have hlsne : layers.map pySplitlines ≠ [] :=
    fun hnil => hlay (List.map_eq_nil_iff.mp hnil)
  have hlen_ls : ∀ l ∈ layers.map pySplitlines, l.length = h := by
    intro l hl
    rcases List.mem_map.mp hl with ⟨t, ht, rfl⟩
    exact hh t ht
  have hmin : minLen (layers.map pySplitlines) = h := minLen_const hlsne hlen_ls
  have hhomo : ∀ rs ∈ zipN (layers.map pySplitlines), ∀ a ∈ rs, ∀ b ∈ rs,
      a.length = b.length := by
    intro rs hrs a ha b hb
    rcases mem_zipN_shape hrs with ⟨i, hi, rfl⟩
    rw [hmin] at hi
    have hlenOf : ∀ c ∈ (layers.map pySplitlines).map
        (fun l => l.getD i default), c.length = L := by
      intro c hc
      rcases List.mem_map.mp hc with ⟨lns, hlns, rfl⟩
      rcases List.mem_map.mp hlns with ⟨t, ht, rfl⟩
      have hmem : (pySplitlines t).getD i default ∈ pySplitlines t :=
        getD_mem_of_lt default (by rw [hh t ht]; exact hi)
      exact hL t ht _ hmem
    rw [hlenOf a ha, hlenOf b hb]
  refine ⟨_, stack_ok layers f hhomo, ?_⟩
  intro i j hi hj
  have hpos : 0 < h := by omega
  have hzlen : (zipN (layers.map pySplitlines)).length = h := by
    rw [zipN_length hlsne, hmin]
  have hrows_ne : (zipN (layers.map pySplitlines)).map
      (fun rs => spaceJoin ((zipN (rs.map every2)).map (stackPixel f))) ≠ [] := by
    intro hnil
    have := congrArg List.length hnil
    rw [List.length_map, hzlen] at this
    simp at this
    omega
  have hsplit : pySplitlines (joinSep ['\n'] ((zipN (layers.map pySplitlines)).map
      (fun rs => spaceJoin ((zipN (rs.map every2)).map (stackPixel f)))) ++ ['\n'])
      = (zipN (layers.map pySplitlines)).map
        (fun rs => spaceJoin ((zipN (rs.map every2)).map (stackPixel f))) := by
    apply pySplitlines_joinSep _ hrows_ne
    intro r hr
    rcases List.mem_map.mp hr with ⟨rs, hrs, rfl⟩
    exact stackRow_output_no_nl f hfn rs (zipN_lines_no_nl hrs)
  unfold layerCell
  rw [hsplit]
  rw [getD_map (fun rs => spaceJoin ((zipN (rs.map every2)).map (stackPixel f)))
    ([] : List (List Char)) ([] : List Char) (by rw [hzlen]; exact hi)]
  rw [zipN_getD hlsne (by rw [hmin]; exact hi)]
  set rs := (layers.map pySplitlines).map (fun l => l.getD i default) with hrsdef
  show (every2 (spaceJoin ((zipN (rs.map every2)).map (stackPixel f)))).getD j ' ' = _
  rw [every2_spaceJoin]
  have hrs_every_len : ∀ e ∈ rs.map every2, e.length = (L + 1) / 2 := by
    intro e he
    rcases List.mem_map.mp he with ⟨a, ha, rfl⟩
    rw [hrsdef] at ha
    rcases List.mem_map.mp ha with ⟨lns, hlns, rfl⟩
    rcases List.mem_map.mp hlns with ⟨t, ht, rfl⟩
    rw [every2_length]
    have hmem : (pySplitlines t).getD i default ∈ pySplitlines t :=
      getD_mem_of_lt default (by rw [hh t ht]; exact hi)
    rw [hL t ht _ hmem]
  have hrsmapne : rs.map every2 ≠ [] := by
    intro hnil
    have h1 : rs = [] := List.map_eq_nil_iff.mp hnil
    rw [hrsdef] at h1
    exact hlay (List.map_eq_nil_iff.mp (List.map_eq_nil_iff.mp h1))
  have hminj : minLen (rs.map every2) = (L + 1) / 2 := minLen_const hrsmapne hrs_every_len
  have hzlen2 : (zipN (rs.map every2)).length = (L + 1) / 2 := by
    rw [zipN_length hrsmapne, hminj]
  rw [getD_map (stackPixel f) ([] : List Char) ' ' (by rw [hzlen2]; exact hj)]
  rw [zipN_getD hrsmapne (by rw [hminj]; exact hj)]
  rw [stackPixel_eq_topmost]
  have hps : ((rs.map every2).map (fun p => p.getD j default))
      = layers.map (fun t => layerCell t i j) := by
    rw [hrsdef]
    simp only [List.map_map]
    apply List.map_congr_left
    intro t ht
    simp only [Function.comp_apply]
    unfold layerCell
    have hid : (pySplitlines t).getD i (default : List Char)
        = (pySplitlines t).getD i [] :=
      getD_eq_getD _ i _ _ (by rw [hh t ht]; exact hi)
    rw [hid]
    apply getD_eq_getD
    rw [every2_length]
    have hmem : (pySplitlines t).getD i [] ∈ pySplitlines t :=
      getD_mem_of_lt [] (by rw [hh t ht]; exact hi)
    rw [hL t ht _ hmem]
    exact hj
  rw [hps]
  rfl

/-- Witness for C5: the spec's own two-layer scenario - layers `"+ .."`
over `". +"` patterns - checked at each cell. -/
theorem stack_topmost_nonspace_wins_witness :
    ∃ out, stack [['+', ' ', ' ', '\n', ' ', ' ', '+', '\n'],
                  [' ', ' ', 'x', '\n', 'x', ' ', ' ', '\n']] ['.'] = .ok out ∧
      ∀ i j, i < 2 → j < (3 + 1) / 2 →
        layerCell out i j
          = (topmostDrawn ([['+', ' ', ' ', '\n', ' ', ' ', '+', '\n'],
              [' ', ' ', 'x', '\n', 'x', ' ', ' ', '\n']].map
                (fun t => layerCell t i j))).getD '.' :=
  stack_topmost_nonspace_wins
    [['+', ' ', ' ', '\n', ' ', ' ', '+', '\n'],
     [' ', ' ', 'x', '\n', 'x', ' ', ' ', '\n']] '.' 2 3
    (by decide) (by decide) (by decide) (by decide)
